import Mathlib

/-!
Verification of the detection engine of the youtube-ad-scanner extension.

The definitions below are shallow embeddings of the TypeScript source:
numbers are modelled by `ℚ` (exact arithmetic), DOM elements by a record of
the fields the code reads, fallible operations by `Except`, and the mutable
registries by explicit state passing.
-/

namespace AdScanner

/-- JS `String.prototype.startsWith` on character lists: `lStarts s p` is
true when `p` is a prefix of `s`. -/
def lStarts : List Char → List Char → Bool
  | _, [] => true
  | [], _ :: _ => false
  | a :: s, b :: p => a == b && lStarts s p

/-- JS `String.prototype.includes` on character lists: `lContains s p` is
true when `p` occurs contiguously inside `s`. -/
def lContains : List Char → List Char → Bool
  | [], p => lStarts [] p
  | a :: t, p => lStarts (a :: t) p || lContains t p

/-- JS `s.includes(p)`. -/
def strContains (s p : String) : Bool :=
  lContains s.toList p.toList

/-- JS `s.startsWith(p)`. -/
def strStartsWith (s p : String) : Bool :=
  lStarts s.toList p.toList

/-- JS `s.split(':')[0]`: the part of `s` before the first colon
(`s` itself when there is no colon). -/
def beforeColon (s : String) : List Char :=
  s.toList.takeWhile (fun c => c ≠ ':')

/-- The static evidence-weight table `EVIDENCE_WEIGHTS` of
`src/detection/classifiers.ts` (lines 37-65), in source order. -/
def EVIDENCE_WEIGHTS : List (String × ℚ) :=
  [ ("player-class:ad-showing", 0.95),
    ("player-class:ad-interrupting", 0.95),
    ("api:getAdState=1", 0.98),
    ("element:ytp-ad-skip-button", 0.9),
    ("element:ytp-ad-text", 0.85),
    ("element:ytp-ad-preview-container", 0.85),
    ("element:ytp-ad-player-overlay-layout", 0.9),
    ("selector:ytd-promoted-sparkles-web-renderer", 0.9),
    ("selector:ytd-ad-slot-renderer", 0.85),
    ("selector:ytd-display-ad-renderer", 0.85),
    ("selector:ytd-promoted-video-renderer", 0.85),
    ("selector:ytd-in-feed-ad-layout-renderer", 0.85),
    ("selector:[data-ad-id]", 0.7),
    ("selector:[data-google-query-id]", 0.65),
    ("selector:[class*=\"-ad-\"]", 0.5),
    ("selector:[id*=\"ad-\"]", 0.4),
    ("content:external-url", 0.6),
    ("content:aria-label-domain", 0.7),
    ("content:data-url", 0.75),
    ("network:ad-service-url", 0.8) ]

/-- One iteration of the weight resolution loop of `calculateConfidence`
(classifiers.ts lines 81-84): `weight = Math.max(weight, w)` whenever
`e.includes(pattern) || e.startsWith(pattern.split(':')[0])`. -/
def weightStep (e : String) (w : ℚ) (pw : String × ℚ) : ℚ :=
  if strContains e pw.1 || lStarts e.toList (beforeColon pw.1) then
    max w pw.2
  else w

/-- The per-token weight resolution of `calculateConfidence`
(classifiers.ts lines 80-85): start from the 0.5 default and fold
`weightStep` over the whole weight table. -/
def resolveWeight (e : String) : ℚ :=
  EVIDENCE_WEIGHTS.foldl (weightStep e) 0.5

/-- `calculateConfidence` of classifiers.ts (lines 70-104): combine the
maximum resolved weight with the square-weighted average, add a boost for
strong signals, clamp at 1; empty evidence scores 0. -/
def calculateConfidence (evidence : List String) : ℚ :=
  if evidence = [] then 0
  else
    let ws := evidence.map resolveWeight
    let maxWeight := ws.foldl max 0
    let totalWeight := ws.sum
    let weightedSum := (ws.map (fun w => w * w)).sum
    let avgWeight := weightedSum / totalWeight
    let confidence := maxWeight * 0.7 + avgWeight * 0.3
    let strongSignals :=
      (evidence.filter (fun e =>
        EVIDENCE_WEIGHTS.any (fun pw => pw.2 > 0.8 && strContains e pw.1))).length
    let boost := min 0.1 ((strongSignals : ℚ) * 0.03)
    min 1 (confidence + boost)

/-- `AdClassifier.getConfidenceThreshold` (classifiers.ts line 319). -/
def getConfidenceThreshold : ℚ := 0.6

/-! ### SelectorManager (src/detection/selectors.ts)

The registry state is the `categories` map: an insertion-ordered
association list from category name to its list of `SelectorConfig`
entries. Element matching (`element.matches(selector)`), which may throw
on malformed selectors, is modelled by a function
`String → Except Unit Bool`. -/

/-- `SelectorConfig` of src/types (selector entry with health fields). -/
structure SelectorConfig where
  selector : String
  priority : ℚ
  successRate : ℚ
  lastSuccess : Option ℤ
  failureCount : Nat
deriving DecidableEq

/-- The `categories` map of `SelectorManager`, in insertion order. -/
abbrev RegState := List (String × List SelectorConfig)

/-- `SelectorManager.maxFailures` (selectors.ts line 22). -/
def maxFailures : Nat := 5

/-- `SelectorManager.minSuccessRate` (selectors.ts line 23). -/
def minSuccessRate : ℚ := 0.3

/-- `SelectorManager.addCategory` (selectors.ts lines 107-109):
`Map.set` — replace the category in place if the name exists, else append. -/
def addCategory (name : String) (selectors : List SelectorConfig) :
    RegState → RegState
  | [] => [(name, selectors)]
  | (n, cs) :: rest =>
    if n = name then (name, selectors) :: rest
    else (n, cs) :: addCategory name selectors rest

/-- Apply `f` to the first entry whose selector string is `sel`
(JS `Array.prototype.find` followed by in-place mutation). -/
def updateFirst (sel : String) (f : SelectorConfig → SelectorConfig) :
    List SelectorConfig → List SelectorConfig
  | [] => []
  | c :: rest =>
    if c.selector = sel then f c :: rest
    else c :: updateFirst sel f rest

/-- `SelectorManager.recordSuccess` (selectors.ts lines 149-158): in every
category, the first entry matching the selector gets
`successRate = min(1, successRate * 1.1)`, `lastSuccess = now`, and
`failureCount = max(0, failureCount - 1)` (truncated `Nat` subtraction). -/
def recordSuccess (selector : String) (now : ℤ) (st : RegState) : RegState :=
  st.map (fun p =>
    (p.1, updateFirst selector (fun c =>
      { c with
        successRate := min 1 (c.successRate * 1.1),
        lastSuccess := some now,
        failureCount := c.failureCount - 1 }) p.2))

/-- `SelectorManager.recordFailure` (selectors.ts lines 163-171): in every
category, the first entry matching the selector gets `failureCount += 1`
and `successRate *= 0.9`. -/
def recordFailure (selector : String) (st : RegState) : RegState :=
  st.map (fun p =>
    (p.1, updateFirst selector (fun c =>
      { c with
        failureCount := c.failureCount + 1,
        successRate := c.successRate * 0.9 }) p.2))

/-- `SelectorManager.addSelector` (selectors.ts lines 176-196): no-op when
the selector string already exists in the category, else append a fresh
entry with neutral `successRate = 0.5`; a missing category is created. -/
def addSelector (category selector : String) (priority : ℚ) :
    RegState → RegState
  | [] => [(category, [⟨selector, priority, 0.5, none, 0⟩])]
  | (n, cs) :: rest =>
    if n = category then
      (n,
        if cs.any (fun s => s.selector == selector) then cs
        else cs ++ [⟨selector, priority, 0.5, none, 0⟩]) :: rest
    else (n, cs) :: addSelector category selector priority rest

/-- `SelectorManager.updateFromConfig` (selectors.ts lines 218-226): bulk
`addSelector` with priority `index + 1` per category list. -/
def updateFromConfig (cats : List (String × List String)) (st : RegState) :
    RegState :=
  cats.foldl
    (fun acc p =>
      p.2.enum.foldl
        (fun acc2 isel => addSelector p.1 isel.2 ((isel.1 : ℚ) + 1) acc2)
        acc)
    st

/-- The result record of `matchesAnySelector`. -/
structure MatchResult where
  matched : Bool
  selector : Option String
  category : Option String
deriving DecidableEq

/-- The inner loop of `SelectorManager.matchesAnySelector` (selectors.ts
lines 233-244) over one category's configs. Returns the match result if
one was found, the (possibly updated) config list, and the list of
selectors for which a match was attempted. Only entries with
`failureCount < maxFailures` are tried; a raising match attempt
increments that entry's `failureCount` and the loop continues. -/
def matchesInCategory (matchFn : String → Except Unit Bool) (catName : String) :
    List SelectorConfig → Option MatchResult × List SelectorConfig × List String
  | [] => (none, [], [])
  | c :: rest =>
    if c.failureCount < maxFailures then
      match matchFn c.selector with
      | .ok true =>
        (some ⟨true, some c.selector, some catName⟩, c :: rest, [c.selector])
      | .ok false =>
        let r := matchesInCategory matchFn catName rest
        (r.1, c :: r.2.1, c.selector :: r.2.2)
      | .error _ =>
        let r := matchesInCategory matchFn catName rest
        (r.1, { c with failureCount := c.failureCount + 1 } :: r.2.1,
          c.selector :: r.2.2)
    else
      let r := matchesInCategory matchFn catName rest
      (r.1, c :: r.2.1, r.2.2)

/-- `SelectorManager.matchesAnySelector` (selectors.ts lines 231-247):
iterate the categories in order, short-circuiting on the first match. -/
def matchesAnySelector (matchFn : String → Except Unit Bool) :
    RegState → MatchResult × RegState × List String
  | [] => (⟨false, none, none⟩, [], [])
  | (n, cs) :: rest =>
    match matchesInCategory matchFn n cs with
    | (some r, cs', tested) => (r, (n, cs') :: rest, tested)
    | (none, cs', tested) =>
      let r := matchesAnySelector matchFn rest
      (r.1, (n, cs') :: r.2.1, tested ++ r.2.2)

/-- The §3 data-model invariant for one entry: `successRate ∈ [0, 1]`. -/
def ConfigInRange (c : SelectorConfig) : Prop :=
  0 ≤ c.successRate ∧ c.successRate ≤ 1

/-- The registry invariant: every entry of every category is in range. -/
def RegInv (st : RegState) : Prop :=
  ∀ p ∈ st, ∀ c ∈ p.2, ConfigInRange c

/-- One public registry operation of `SelectorManager`. -/
inductive RegOp where
  | addCategory (name : String) (selectors : List SelectorConfig)
  | addSelector (category selector : String) (priority : ℚ)
  | updateFromConfig (categories : List (String × List String))
  | recordSuccess (selector : String) (now : ℤ)
  | recordFailure (selector : String)
  | matchesAny (matchFn : String → Except Unit Bool)

/-- State effect of one registry operation. -/
def applyOp : RegOp → RegState → RegState
  | .addCategory n sels, st => addCategory n sels st
  | .addSelector cat sel prio, st => addSelector cat sel prio st
  | .updateFromConfig cats, st => updateFromConfig cats st
  | .recordSuccess sel now, st => recordSuccess sel now st
  | .recordFailure sel, st => recordFailure sel st
  | .matchesAny f, st => (matchesAnySelector f st).2.1

/-- State effect of a sequence of registry operations. -/
def applyOps (ops : List RegOp) (st : RegState) : RegState :=
  ops.foldl (fun s op => applyOp op s) st

/-- An operation is well-formed when the entries it injects verbatim
(`addCategory`'s initial list, per the §3 data model) are in range; all
other operations construct their entries themselves. -/
def OpWF : RegOp → Prop
  | .addCategory _ sels => ∀ c ∈ sels, ConfigInRange c
  | _ => True

/-! ### AdClassifier: type classification and the per-element cache
(src/detection/classifiers.ts) -/

/-- `AdType` of src/types. -/
inductive AdType where
  | preroll | midroll | banner | sponsored | overlay
  | displayAd | videoAd | networkAd
deriving DecidableEq

/-- The fields of a DOM element that `classifyAdType` and the cache read:
`id` models JS object identity (the `WeakMap`/`WeakSet` key). -/
structure Element where
  id : Nat
  tagName : String
  className : String
deriving DecidableEq

/-- `classifyAdType` (classifiers.ts lines 109-161): ordered decision
rules over the joined evidence string, the element's class and tag names,
and — for the video branch — the current playback position of the page's
`<video>` element (`videoTime`, `none` when absent). -/
def classifyAdType (videoTime : Option ℚ) (element : Element)
    (evidence : List String) : AdType :=
  let evidenceStr := String.intercalate " " evidence
  let className := element.className
  let tagName := element.tagName.toLower
  if strContains evidenceStr "ad-showing" ||
      strContains evidenceStr "ad-interrupting" ||
      strContains evidenceStr "getAdState" then
    match videoTime with
    | some t => if t < 5 then .preroll else .midroll
    | none => .midroll
  else if strContains className "overlay" || strContains evidenceStr "overlay" ||
      strContains tagName "overlay" then .overlay
  else if strContains className "banner" || strContains tagName "banner" ||
      strContains evidenceStr "banner" then .banner
  else if strContains className "promoted" || strContains tagName "promoted" ||
      strContains evidenceStr "promoted" ||
      strContains evidenceStr "sparkles" then .sponsored
  else if strContains className "display" || strContains tagName "display" ||
      strContains evidenceStr "display" then .displayAd
  else if strContains evidenceStr "network" then .networkAd
  else .displayAd

/-- `DetectionResult` of src/types. -/
structure DetectionResult where
  element : Element
  type : AdType
  confidence : ℚ
  evidence : List String
  timestamp : ℤ
deriving DecidableEq

/-- `createDetectionResult` (classifiers.ts lines 263-274). -/
def createDetectionResult (videoTime : Option ℚ) (element : Element)
    (evidence : List String) (now : ℤ) : DetectionResult :=
  { element := element,
    type := classifyAdType videoTime element evidence,
    confidence := calculateConfidence evidence,
    evidence := evidence,
    timestamp := now }

/-- JS `[...new Set(list)]` (first-occurrence deduplication), with the
already-seen elements accumulated in `seen`. -/
def jsDedupAux (seen : List String) : List String → List String
  | [] => []
  | a :: l =>
    if a ∈ seen then jsDedupAux seen l
    else a :: jsDedupAux (a :: seen) l

/-- JS `[...new Set(list)]`: keep the first occurrence of each element. -/
def jsDedup (l : List String) : List String :=
  jsDedupAux [] l

/-- `AdClassifier.cacheTimeout` (classifiers.ts line 281). -/
def cacheTimeout : ℤ := 2000

/-- `AdClassifier.classify` (classifiers.ts lines 286-305). `cached` is
the `WeakMap` entry for `element` (`none` when absent); the result is the
returned `DetectionResult` paired with the cache entry after the call. -/
def classify (videoTime : Option ℚ) (now : ℤ) (cached : Option DetectionResult)
    (element : Element) (evidence : List String) :
    DetectionResult × Option DetectionResult :=
  match cached with
  | some c =>
    if now - c.timestamp < cacheTimeout then
      if evidence.length > 0 then
        let mergedEvidence := jsDedup (c.evidence ++ evidence)
        if mergedEvidence.length > c.evidence.length then
          let updated := createDetectionResult videoTime element mergedEvidence now
          (updated, some updated)
        else (c, some c)
      else (c, some c)
    else
      let result := createDetectionResult videoTime element evidence now
      (result, some result)
  | none =>
    let result := createDetectionResult videoTime element evidence now
    (result, some result)

/-! ### DetectionPipeline (src/detection/pipeline.ts) -/

/-- `StepResult` of src/types (`ads` is optional). -/
structure StepResult where
  detected : Bool
  confidence : ℚ
  evidence : List String
  ads : Option (List DetectionResult)

/-- A detection stage: a name and an `execute` that receives the shared
run context and either returns a `StepResult` or throws. -/
structure Stage where
  name : String
  execute : List DetectionResult × List String → Except String StepResult

/-- The stage loop of `DetectionPipeline.run` (pipeline.ts lines 402-413):
execute the stages in order against the shared context
`(detections, evidence)`, merging each result into the context; an
uncaught stage exception aborts the loop and is returned as `.error`.
Also returns the names of the stages whose `execute` was invoked. -/
def runStages :
    List Stage → List DetectionResult × List String →
    Except String (List DetectionResult × List String) × List String
  | [], ctx => (.ok ctx, [])
  | s :: rest, ctx =>
    match s.execute ctx with
    | .error e => (.error e, [s.name])
    | .ok r =>
      let ctx' := (ctx.1 ++ r.ads.getD [], ctx.2 ++ r.evidence)
      let rec' := runStages rest ctx'
      (rec'.1, s.name :: rec'.2)

/-- The unique-by-element filter of `DetectionPipeline.run` (pipeline.ts
lines 419-424): keep the first detection for each element identity. -/
def dedupByElement (seen : List Nat) : List DetectionResult → List DetectionResult
  | [] => []
  | d :: rest =>
    if d.element.id ∈ seen then dedupByElement seen rest
    else d :: dedupByElement (d.element.id :: seen) rest

/-- `DetectionPipeline.minInterval` (pipeline.ts line 376). -/
def minInterval : ℤ := 100

/-- Pipeline state: `lastRunTime` (pipeline.ts line 375). -/
structure PipeState where
  lastRunTime : ℤ
deriving DecidableEq

/-- `DetectionPipeline.run` (pipeline.ts lines 385-425): throttle, then
run the stages over a fresh context and return the unique-by-element
detections; a stage exception escapes `run` (there is no catch around the
stage loop, only a timing `finally`). The third component lists the
stages that were invoked during the call. -/
def runPipeline (steps : List Stage) (st : PipeState) (now : ℤ) :
    Except String (List DetectionResult) × PipeState × List String :=
  if now - st.lastRunTime < minInterval then (.ok [], st, [])
  else
    let st' : PipeState := ⟨now⟩
    match runStages steps ([], []) with
    | (.ok ctx, names) => (.ok (dedupByElement [] ctx.1), st', names)
    | (.error e, names) => (.error e, st', names)

/-! ### Session deduplication in the content script (src/content/index.ts) -/

/-- The composite dedup key of `logAd` (content/index.ts line 44):
`` `${adInfo.url}:${adInfo.source}` ``. -/
def logAdKey (url source : String) : String :=
  url ++ ":" ++ source

/-- The dedup gate of `logAd` (content/index.ts lines 42-66): report iff
the composite key is not in the session `loggedUrls` set, adding it when
absent. Returns whether the report is surfaced together with the updated
set. -/
def shouldReport (url source : String) (logged : List String) :
    Bool × List String :=
  let urlKey := logAdKey url source
  if urlKey ∈ logged then (false, logged)
  else (true, urlKey :: logged)

/-- Run a sequence of report attempts through `shouldReport`, returning
the per-call outcomes and the final session set. -/
def processCalls : List (String × String) → List String →
    List Bool × List String
  | [], logged => ([], logged)
  | (u, s) :: rest, logged =>
    let r := shouldReport u s logged
    let rec' := processCalls rest r.2
    (r.1 :: rec'.1, rec'.2)

/-! ### Bounds on the confidence score -/

theorem le_foldl_weightStep (e : String) :
    ∀ (l : List (String × ℚ)) (a : ℚ), a ≤ l.foldl (weightStep e) a := by
  intro l
  induction l with
  | nil => intro a; exact le_refl a
  | cons c t ih =>
    intro a
    have h1 : a ≤ weightStep e a c := by
      unfold weightStep
      split
      · exact le_max_left _ _
      · exact le_refl a
    exact le_trans h1 (ih (weightStep e a c))

theorem foldl_weightStep_le_one (e : String) :
    ∀ (l : List (String × ℚ)) (a : ℚ), (∀ pw ∈ l, pw.2 ≤ 1) → a ≤ 1 →
      l.foldl (weightStep e) a ≤ 1 := by
  intro l
  induction l with
  | nil => intro a _ ha; exact ha
  | cons c t ih =>
    intro a hl ha
    apply ih
    · intro pw hpw; exact hl pw (List.mem_cons_of_mem _ hpw)
    · unfold weightStep
      split
      · exact max_le ha (hl c (List.mem_cons_self _ _))
      · exact ha

theorem resolveWeight_nonneg (e : String) : 0 ≤ resolveWeight e := by
  have h : (0.5 : ℚ) ≤ resolveWeight e := le_foldl_weightStep e EVIDENCE_WEIGHTS 0.5
  linarith

theorem evidenceWeights_le_one : ∀ pw ∈ EVIDENCE_WEIGHTS, pw.2 ≤ 1 := by
  intro pw hpw
  fin_cases hpw <;> norm_num

theorem resolveWeight_le_one (e : String) : resolveWeight e ≤ 1 := by
  apply foldl_weightStep_le_one
  · exact evidenceWeights_le_one
  · norm_num

theorem le_foldl_max (l : List ℚ) (a : ℚ) : a ≤ l.foldl max a := by
  induction l generalizing a with
  | nil => exact le_refl a
  | cons c t ih => exact le_trans (le_max_left a c) (ih (max a c))

/-- C6: for every evidence list, `calculateConfidence` lies in `[0, 1]`. -/
theorem scoreEvidence_bounded (evidence : List String) :
    0 ≤ calculateConfidence evidence ∧ calculateConfidence evidence ≤ 1 := by
  unfold calculateConfidence
  split
  · norm_num
  · refine ⟨?_, min_le_left _ _⟩
    apply le_min (by norm_num)
    have hmax : (0 : ℚ) ≤ (evidence.map resolveWeight).foldl max 0 :=
      le_foldl_max _ 0
    have hws : (0 : ℚ) ≤ (evidence.map resolveWeight).sum := by
      apply List.sum_nonneg
      intro x hx
      obtain ⟨e, _, rfl⟩ := List.mem_map.mp hx
      exact resolveWeight_nonneg e
    have hsq : (0 : ℚ) ≤ ((evidence.map resolveWeight).map (fun w => w * w)).sum := by
      apply List.sum_nonneg
      intro x hx
      obtain ⟨w, _, rfl⟩ := List.mem_map.mp hx
      exact mul_self_nonneg w
    have havg : (0 : ℚ) ≤
        ((evidence.map resolveWeight).map (fun w => w * w)).sum /
          (evidence.map resolveWeight).sum :=
      div_nonneg hsq hws
    have hboost : (0 : ℚ) ≤ min 0.1
        ((((evidence.filter (fun e =>
            EVIDENCE_WEIGHTS.any (fun pw => pw.2 > 0.8 && strContains e pw.1))).length : ℚ)) * 0.03) := by
      apply le_min (by norm_num)
      positivity
    positivity

/-! ### The score of the single token `content:aria-label-domain` (C2) -/

theorem resolveWeight_ariaLabelDomain :
    resolveWeight "content:aria-label-domain" = 0.75 := by
  simp +decide [resolveWeight, EVIDENCE_WEIGHTS, weightStep, max_def]
  norm_num

theorem calculateConfidence_ariaLabelDomain :
    calculateConfidence ["content:aria-label-domain"] = 0.75 := by
  simp +decide [calculateConfidence, resolveWeight_ariaLabelDomain, EVIDENCE_WEIGHTS,
    List.filter_cons, max_def]
  norm_num

/-- C2 counterexample: scoring `["content:aria-label-domain"]` does not
yield 0.7 — the `startsWith(pattern.split(':')[0])` clause lets the token
pick up the 0.75 weight of `content:data-url`, so the score is 0.75. -/
theorem scoreEvidence_ariaLabel_ne_claimed :
    calculateConfidence ["content:aria-label-domain"] ≠ 0.7 := by
  rw [calculateConfidence_ariaLabelDomain]
  norm_num

/-- C2 amended: the token `content:aria-label-domain` resolves to weight
0.75 (the max over all table entries sharing the `content` prefix, the
0.75 of `content:data-url` dominating), the score of the single-token list
is 0.75 = 0.75×0.7 + 0.75×0.3, and this is still above the reporting
threshold 0.6. -/
theorem scoreEvidence_ariaLabel_amended :
    resolveWeight "content:aria-label-domain" = 0.75 ∧
    calculateConfidence ["content:aria-label-domain"] = 0.75 ∧
    getConfidenceThreshold < calculateConfidence ["content:aria-label-domain"] := by
  refine ⟨resolveWeight_ariaLabelDomain, calculateConfidence_ariaLabelDomain, ?_⟩
  rw [calculateConfidence_ariaLabelDomain]
  norm_num [getConfidenceThreshold]

/-! ### matchesAnySelector: which entries get match-tested (C3, C4) -/

/-- C3 counterexample: `matchesAnySelector` does consult an entry whose
`successRate` (0.1) is below `minSuccessRate` (0.3) — the code only checks
`failureCount < maxFailures` — and even returns it as the match. -/
theorem matchesAny_tests_low_successRate_entry :
    (matchesAnySelector (fun _ => .ok true)
        [("cat", [⟨"p", 1, 0.1, none, 0⟩])]) =
      (⟨true, some "p", some "cat"⟩,
        [("cat", [⟨"p", 1, 0.1, none, 0⟩])], ["p"]) ∧
    (0.1 : ℚ) < minSuccessRate := by
  refine ⟨rfl, by norm_num [minSuccessRate]⟩

theorem matchesInCategory_tested_mem (f : String → Except Unit Bool) (n : String) :
    ∀ (cs : List SelectorConfig) (s : String),
      s ∈ (matchesInCategory f n cs).2.2 →
      ∃ c ∈ cs, c.selector = s ∧ c.failureCount < maxFailures := by
  intro cs
  induction cs with
  | nil => intro s hs; simp [matchesInCategory] at hs
  | cons c rest ih =>
    intro s hs
    by_cases hfc : c.failureCount < maxFailures
    · rcases hm : f c.selector with u | b
      · simp only [matchesInCategory, if_pos hfc, hm] at hs
        rcases List.mem_cons.mp hs with rfl | hs
        · exact ⟨c, List.mem_cons_self _ _, rfl, hfc⟩
        · obtain ⟨c', hc', hsel, hlt⟩ := ih s hs
          exact ⟨c', List.mem_cons_of_mem _ hc', hsel, hlt⟩
      · cases b
        · simp only [matchesInCategory, if_pos hfc, hm] at hs
          rcases List.mem_cons.mp hs with rfl | hs
          · exact ⟨c, List.mem_cons_self _ _, rfl, hfc⟩
          · obtain ⟨c', hc', hsel, hlt⟩ := ih s hs
            exact ⟨c', List.mem_cons_of_mem _ hc', hsel, hlt⟩
        · simp only [matchesInCategory, if_pos hfc, hm, List.mem_singleton] at hs
          exact ⟨c, List.mem_cons_self _ _, hs.symm, hfc⟩
    · simp only [matchesInCategory, if_neg hfc] at hs
      obtain ⟨c', hc', hsel, hlt⟩ := ih s hs
      exact ⟨c', List.mem_cons_of_mem _ hc', hsel, hlt⟩

/-- C3 amended: `matchesAnySelector` skips exactly the entries with
`failureCount ≥ maxFailures`; every selector it match-tests belongs to an
entry of the registry with `failureCount < maxFailures` — `successRate`
(and hence `minSuccessRate`) is not consulted. -/
theorem matchesAny_tested_under_maxFailures (f : String → Except Unit Bool)
    (st : RegState) (s : String)
    (hs : s ∈ (matchesAnySelector f st).2.2) :
    ∃ p ∈ st, ∃ c ∈ p.2, c.selector = s ∧ c.failureCount < maxFailures := by
  induction st with
  | nil => simp [matchesAnySelector] at hs
  | cons p rest ih =>
    obtain ⟨n, cs⟩ := p
    rcases h : matchesInCategory f n cs with ⟨or, cs', tested⟩
    have htested : tested = (matchesInCategory f n cs).2.2 := by rw [h]
    cases or with
    | some r =>
      simp only [matchesAnySelector, h] at hs
      obtain ⟨c, hc, hsel, hlt⟩ :=
        matchesInCategory_tested_mem f n cs s (htested ▸ hs)
      exact ⟨(n, cs), List.mem_cons_self _ _, c, hc, hsel, hlt⟩
    | none =>
      simp only [matchesAnySelector, h, List.mem_append] at hs
      rcases hs with hs | hs
      · obtain ⟨c, hc, hsel, hlt⟩ :=
          matchesInCategory_tested_mem f n cs s (htested ▸ hs)
        exact ⟨(n, cs), List.mem_cons_self _ _, c, hc, hsel, hlt⟩
      · obtain ⟨p', hp', c, hc, hsel, hlt⟩ := ih hs
        exact ⟨p', List.mem_cons_of_mem _ hp', c, hc, hsel, hlt⟩

theorem matchesAny_tested_under_maxFailures_witness :
    ("p" ∈ (matchesAnySelector (fun _ => .ok true)
        [("cat", [⟨"p", 1, 1, none, 0⟩])]).2.2) ∧
    ∃ p ∈ [("cat", [(⟨"p", 1, 1, none, 0⟩ : SelectorConfig)])],
      ∃ c ∈ p.2, c.selector = "p" ∧ c.failureCount < maxFailures := by
  have hmem : "p" ∈ (matchesAnySelector (fun _ => .ok true)
      [("cat", [(⟨"p", 1, 1, none, 0⟩ : SelectorConfig)])]).2.2 := by
    show "p" ∈ ["p"]
    exact List.mem_singleton.mpr rfl
  exact ⟨hmem, matchesAny_tested_under_maxFailures _ _ _ hmem⟩

/-- C4 counterexample: a raising match attempt only increments the entry's
`failureCount`; `recordFailure` is NOT invoked, so the entry's
`successRate` stays 0.5 instead of becoming 0.5 × 0.9 = 0.45 (evaluation
does continue with the next pattern and nothing propagates). -/
theorem matchesAny_error_successRate_unchanged :
    (matchesAnySelector
        (fun s => if s = "q" then .error () else .ok false)
        [("cat", [⟨"q", 1, 0.5, none, 0⟩, ⟨"r", 2, 0.5, none, 0⟩])]) =
      (⟨false, none, none⟩,
        [("cat", [⟨"q", 1, 0.5, none, 1⟩, ⟨"r", 2, 0.5, none, 0⟩])],
        ["q", "r"]) ∧
    (0.5 : ℚ) ≠ 0.5 * 0.9 := by
  refine ⟨rfl, by norm_num⟩

/-- C4 amended: inside `matchesAnySelector`, a pattern whose match attempt
raises has its entry's `failureCount` incremented by 1 while its
`successRate` is left unchanged (`recordFailure` is not called), the loop
continues with the remaining patterns, and the exception never propagates
(the function returns normally). -/
theorem matchesAny_error_increments_failureCount
    (f : String → Except Unit Bool) (n : String) (c : SelectorConfig)
    (rest : List SelectorConfig)
    (hfc : c.failureCount < maxFailures)
    (hm : f c.selector = .error ()) :
    matchesInCategory f n (c :: rest) =
      ((matchesInCategory f n rest).1,
        { c with failureCount := c.failureCount + 1 } ::
          (matchesInCategory f n rest).2.1,
        c.selector :: (matchesInCategory f n rest).2.2) := by
  simp only [matchesInCategory, if_pos hfc, hm]

theorem matchesAny_error_increments_failureCount_witness :
    ((⟨"q", 1, 0.5, none, 0⟩ : SelectorConfig).failureCount < maxFailures ∧
      (fun s => if s = "q" then (.error () : Except Unit Bool) else .ok false)
        (⟨"q", 1, 0.5, none, 0⟩ : SelectorConfig).selector = .error ()) ∧
    matchesInCategory (fun s => if s = "q" then .error () else .ok false)
        "cat" [⟨"q", 1, 0.5, none, 0⟩, ⟨"r", 2, 0.5, none, 0⟩] =
      (none, [⟨"q", 1, 0.5, none, 1⟩, ⟨"r", 2, 0.5, none, 0⟩], ["q", "r"]) := by
  refine ⟨⟨by decide, rfl⟩, ?_⟩
  rw [matchesAny_error_increments_failureCount _ _ _ _ (by decide) rfl]
  rfl

/-! ### Frame property of recordSuccess / recordFailure (C10) -/

theorem updateFirst_absent (sel : String) (f : SelectorConfig → SelectorConfig) :
    ∀ cs : List SelectorConfig, (∀ c ∈ cs, c.selector ≠ sel) →
      updateFirst sel f cs = cs := by
  intro cs
  induction cs with
  | nil => intro _; rfl
  | cons c rest ih =>
    intro h
    rw [updateFirst, if_neg (h c (List.mem_cons_self _ _)),
      ih (fun c' hc' => h c' (List.mem_cons_of_mem _ hc'))]

theorem map_mem_id {α : Type} (g : α → α) :
    ∀ l : List α, (∀ x ∈ l, g x = x) → l.map g = l := by
  intro l
  induction l with
  | nil => intro _; rfl
  | cons x rest ih =>
    intro h
    rw [List.map_cons, h x (List.mem_cons_self _ _),
      ih (fun y hy => h y (List.mem_cons_of_mem _ hy))]

/-- C10: calling `recordSuccess` or `recordFailure` with a selector string
that is not textually present in any category leaves the whole registry
unchanged. -/
theorem record_absent_selector_noop (sel : String) (now : ℤ) (st : RegState)
    (h : ∀ p ∈ st, ∀ c ∈ p.2, c.selector ≠ sel) :
    recordSuccess sel now st = st ∧ recordFailure sel st = st := by
  constructor
  · apply map_mem_id
    intro p hp
    rw [updateFirst_absent sel
      (fun c =>
        { c with
          successRate := min 1 (c.successRate * 1.1),
          lastSuccess := some now,
          failureCount := c.failureCount - 1 }) p.2 (h p hp)]
  · apply map_mem_id
    intro p hp
    rw [updateFirst_absent sel
      (fun c =>
        { c with
          failureCount := c.failureCount + 1,
          successRate := c.successRate * 0.9 }) p.2 (h p hp)]

theorem record_absent_selector_noop_witness :
    (∀ p ∈ [("cat", [(⟨"p", 1, 1, none, 0⟩ : SelectorConfig)])],
      ∀ c ∈ p.2, c.selector ≠ "zzz") ∧
    recordSuccess "zzz" 5 [("cat", [⟨"p", 1, 1, none, 0⟩])] =
        [("cat", [⟨"p", 1, 1, none, 0⟩])] ∧
    recordFailure "zzz" [("cat", [⟨"p", 1, 1, none, 0⟩])] =
        [("cat", [⟨"p", 1, 1, none, 0⟩])] := by
  have h : ∀ p ∈ [("cat", [(⟨"p", 1, 1, none, 0⟩ : SelectorConfig)])],
      ∀ c ∈ p.2, c.selector ≠ "zzz" := by
    intro p hp c hc
    fin_cases hp
    fin_cases hc
    decide
  obtain ⟨h1, h2⟩ := record_absent_selector_noop "zzz" 5 _ h
  exact ⟨h, h1, h2⟩

/-! ### Registry invariant: successRate stays in [0, 1] (C9) -/

theorem addCategory_inv (n : String) (sels : List SelectorConfig)
    (hs : ∀ c ∈ sels, ConfigInRange c) :
    ∀ st : RegState, RegInv st → RegInv (addCategory n sels st) := by
  intro st
  induction st with
  | nil =>
    intro _ p hp c hc
    rcases List.mem_singleton.mp hp with rfl
    exact hs c hc
  | cons q rest ih =>
    obtain ⟨qn, qcs⟩ := q
    intro h p hp c hc
    have hq : ∀ c ∈ qcs, ConfigInRange c := h (qn, qcs) (List.mem_cons_self _ _)
    have hrest : RegInv rest := fun r hr => h r (List.mem_cons_of_mem _ hr)
    by_cases he : qn = n
    · simp only [addCategory, if_pos he] at hp
      rcases List.mem_cons.mp hp with rfl | hp
      · exact hs c hc
      · exact hrest p hp c hc
    · simp only [addCategory, if_neg he] at hp
      rcases List.mem_cons.mp hp with rfl | hp
      · exact hq c hc
      · exact ih hrest p hp c hc

theorem freshConfig_range (sel : String) (prio : ℚ) :
    ConfigInRange ⟨sel, prio, 0.5, none, 0⟩ := by
  constructor <;> norm_num [ConfigInRange]

theorem addSelector_inv (cat sel : String) (prio : ℚ) :
    ∀ st : RegState, RegInv st → RegInv (addSelector cat sel prio st) := by
  intro st
  induction st with
  | nil =>
    intro _ p hp c hc
    rcases List.mem_singleton.mp hp with rfl
    rcases List.mem_singleton.mp hc with rfl
    exact freshConfig_range sel prio
  | cons q rest ih =>
    obtain ⟨qn, qcs⟩ := q
    intro h p hp c hc
    have hq : ∀ c ∈ qcs, ConfigInRange c := h (qn, qcs) (List.mem_cons_self _ _)
    have hrest : RegInv rest := fun r hr => h r (List.mem_cons_of_mem _ hr)
    by_cases he : qn = cat
    · simp only [addSelector, if_pos he] at hp
      rcases List.mem_cons.mp hp with rfl | hp
      · split at hc
        · exact hq c hc
        · rcases List.mem_append.mp hc with hc | hc
          · exact hq c hc
          · rcases List.mem_singleton.mp hc with rfl
            exact freshConfig_range sel prio
      · exact hrest p hp c hc
    · simp only [addSelector, if_neg he] at hp
      rcases List.mem_cons.mp hp with rfl | hp
      · exact hq c hc
      · exact ih hrest p hp c hc

theorem foldl_addSelector_inv (n : String) :
    ∀ (l : List (Nat × String)) (st : RegState), RegInv st →
      RegInv (l.foldl
        (fun acc2 isel => addSelector n isel.2 ((isel.1 : ℚ) + 1) acc2) st) := by
  intro l
  induction l with
  | nil => intro st h; exact h
  | cons x rest ih =>
    intro st h
    exact ih _ (addSelector_inv n x.2 ((x.1 : ℚ) + 1) st h)

theorem updateFromConfig_inv (cats : List (String × List String)) :
    ∀ st : RegState, RegInv st → RegInv (updateFromConfig cats st) := by
  induction cats with
  | nil => intro st h; exact h
  | cons p rest ih =>
    intro st h
    exact ih _ (foldl_addSelector_inv p.1 p.2.enum st h)

theorem updateFirst_range (sel : String) (f : SelectorConfig → SelectorConfig)
    (hf : ∀ c, ConfigInRange c → ConfigInRange (f c)) :
    ∀ cs : List SelectorConfig, (∀ c ∈ cs, ConfigInRange c) →
      ∀ c ∈ updateFirst sel f cs, ConfigInRange c := by
  intro cs
  induction cs with
  | nil => intro _ c hc; simp [updateFirst] at hc
  | cons a rest ih =>
    intro h c hc
    have ha : ConfigInRange a := h a (List.mem_cons_self _ _)
    have hrest : ∀ x ∈ rest, ConfigInRange x :=
      fun x hx => h x (List.mem_cons_of_mem _ hx)
    rw [updateFirst] at hc
    split at hc
    · rcases List.mem_cons.mp hc with rfl | hc
      · exact hf a ha
      · exact hrest c hc
    · rcases List.mem_cons.mp hc with rfl | hc
      · exact ha
      · exact ih hrest c hc

theorem recordSuccess_inv (sel : String) (now : ℤ) (st : RegState)
    (h : RegInv st) : RegInv (recordSuccess sel now st) := by
  intro p hp c hc
  obtain ⟨q, hq, rfl⟩ := List.mem_map.mp hp
  refine updateFirst_range sel _ ?_ q.2 (h q hq) c hc
  intro a ⟨h0, h1⟩
  constructor
  · exact le_min (by norm_num) (mul_nonneg h0 (by norm_num))
  · exact min_le_left _ _

theorem recordFailure_inv (sel : String) (st : RegState)
    (h : RegInv st) : RegInv (recordFailure sel st) := by
  intro p hp c hc
  obtain ⟨q, hq, rfl⟩ := List.mem_map.mp hp
  refine updateFirst_range sel _ ?_ q.2 (h q hq) c hc
  intro a ⟨h0, h1⟩
  constructor
  · exact mul_nonneg h0 (by norm_num)
  · calc a.successRate * 0.9 ≤ 1 * 0.9 := by
          exact mul_le_mul_of_nonneg_right h1 (by norm_num)
    _ ≤ 1 := by norm_num

theorem matchesInCategory_range (f : String → Except Unit Bool) (n : String) :
    ∀ cs : List SelectorConfig, (∀ c ∈ cs, ConfigInRange c) →
      ∀ c ∈ (matchesInCategory f n cs).2.1, ConfigInRange c := by
  intro cs
  induction cs with
  | nil => intro _ c hc; simp [matchesInCategory] at hc
  | cons c rest ih =>
    intro h c' hc'
    have hhead : ConfigInRange c := h c (List.mem_cons_self _ _)
    have htail : ∀ x ∈ rest, ConfigInRange x :=
      fun x hx => h x (List.mem_cons_of_mem _ hx)
    by_cases hfc : c.failureCount < maxFailures
    · rcases hm : f c.selector with u | b
      · simp only [matchesInCategory, if_pos hfc, hm] at hc'
        rcases List.mem_cons.mp hc' with rfl | hc'
        · exact hhead
        · exact ih htail c' hc'
      · cases b
        · simp only [matchesInCategory, if_pos hfc, hm] at hc'
          rcases List.mem_cons.mp hc' with rfl | hc'
          · exact hhead
          · exact ih htail c' hc'
        · simp only [matchesInCategory, if_pos hfc, hm] at hc'
          rcases List.mem_cons.mp hc' with rfl | hc'
          · exact hhead
          · exact htail c' hc'
    · simp only [matchesInCategory, if_neg hfc] at hc'
      rcases List.mem_cons.mp hc' with rfl | hc'
      · exact hhead
      · exact ih htail c' hc'

theorem matchesAny_inv (f : String → Except Unit Bool) :
    ∀ st : RegState, RegInv st → RegInv (matchesAnySelector f st).2.1 := by
  intro st
  induction st with
  | nil => intro _ p hp; simp [matchesAnySelector] at hp
  | cons q rest ih =>
    obtain ⟨n, cs⟩ := q
    intro h p hp c hc
    have hq : ∀ c ∈ cs, ConfigInRange c := h (n, cs) (List.mem_cons_self _ _)
    have hrest : RegInv rest := fun r hr => h r (List.mem_cons_of_mem _ hr)
    have hcs' : cs = (n, cs).2 := rfl
    rcases hmc : matchesInCategory f n cs with ⟨or, cs', tested⟩
    have hrange : ∀ c ∈ cs', ConfigInRange c := by
      intro c hc
      have := matchesInCategory_range f n cs hq c
      rw [hmc] at this
      exact this hc
    cases or with
    | some r =>
      simp only [matchesAnySelector, hmc] at hp
      rcases List.mem_cons.mp hp with rfl | hp
      · exact hrange c hc
      · exact hrest p hp c hc
    | none =>
      simp only [matchesAnySelector, hmc] at hp
      rcases List.mem_cons.mp hp with rfl | hp
      · exact hrange c hc
      · exact ih hrest p hp c hc

/-- C9: starting from any registry satisfying the invariant, any sequence
of well-formed registry operations (`addCategory`, `addSelector`,
`updateFromConfig`, `recordSuccess`, `recordFailure`, `matchesAny`)
leaves every entry's `successRate` in `[0, 1]`. -/
theorem registry_successRate_invariant (ops : List RegOp) (st : RegState)
    (hst : RegInv st) (hops : ∀ op ∈ ops, OpWF op) :
    RegInv (applyOps ops st) := by
  induction ops generalizing st with
  | nil => exact hst
  | cons op rest ih =>
    have hop : OpWF op := hops op (List.mem_cons_self _ _)
    have hrest : ∀ o ∈ rest, OpWF o :=
      fun o ho => hops o (List.mem_cons_of_mem _ ho)
    have hstep : RegInv (applyOp op st) := by
      cases op with
      | addCategory n sels => exact addCategory_inv n sels hop st hst
      | addSelector cat sel prio => exact addSelector_inv cat sel prio st hst
      | updateFromConfig cats => exact updateFromConfig_inv cats st hst
      | recordSuccess sel now => exact recordSuccess_inv sel now st hst
      | recordFailure sel => exact recordFailure_inv sel st hst
      | matchesAny f => exact matchesAny_inv f st hst
    exact ih (applyOp op st) hstep hrest

theorem registry_successRate_invariant_witness :
    (RegInv [("cat", [⟨"p", 1, 1, none, 0⟩])] ∧
      (∀ op ∈ [RegOp.recordFailure "p", RegOp.addSelector "cat" "x" 10,
        RegOp.recordSuccess "p" 7,
        RegOp.matchesAny (fun _ => .error ())], OpWF op)) ∧
    RegInv (applyOps
      [RegOp.recordFailure "p", RegOp.addSelector "cat" "x" 10,
        RegOp.recordSuccess "p" 7,
        RegOp.matchesAny (fun _ => .error ())]
      [("cat", [⟨"p", 1, 1, none, 0⟩])]) := by
  have hst : RegInv [("cat", [(⟨"p", 1, 1, none, 0⟩ : SelectorConfig)])] := by
    intro p hp c hc
    rcases List.mem_singleton.mp hp with rfl
    rcases List.mem_singleton.mp hc with rfl
    exact ⟨by norm_num, by norm_num⟩
  have hops : ∀ op ∈ [RegOp.recordFailure "p", RegOp.addSelector "cat" "x" 10,
      RegOp.recordSuccess "p" 7,
      RegOp.matchesAny (fun _ => .error ())], OpWF op := by
    intro op hop
    simp only [List.mem_cons, List.mem_singleton] at hop
    rcases hop with rfl | rfl | rfl | rfl | h
    · trivial
    · trivial
    · trivial
    · trivial
    · simp at h
  exact ⟨⟨hst, hops⟩, registry_successRate_invariant _ _ hst hops⟩

/-! ### classify: cache merge behaviour (C5) -/

theorem card_insert_eq_erase_add_one {α : Type} [DecidableEq α]
    (s : Finset α) (a : α) :
    (insert a s).card = (s.erase a).card + 1 := by
  by_cases h : a ∈ s
  · rw [Finset.card_insert_of_mem h, ← Finset.card_erase_add_one h]
  · rw [Finset.card_insert_of_not_mem h, Finset.erase_eq_of_not_mem h]

theorem jsDedupAux_length :
    ∀ (l seen : List String),
      (jsDedupAux seen l).length = (l.toFinset \ seen.toFinset).card := by
  intro l
  induction l with
  | nil => intro seen; simp [jsDedupAux]
  | cons a l ih =>
    intro seen
    by_cases h : a ∈ seen
    · rw [jsDedupAux, if_pos h, ih seen]
      congr 1
      rw [List.toFinset_cons]
      ext x
      simp only [Finset.mem_sdiff, Finset.mem_insert, List.mem_toFinset]
      constructor
      · rintro ⟨hx, hns⟩
        exact ⟨Or.inr hx, hns⟩
      · rintro ⟨hxa | hx, hns⟩
        · exact absurd h (hxa ▸ hns)
        · exact ⟨hx, hns⟩
    · rw [jsDedupAux, if_neg h, List.length_cons, ih (a :: seen),
        List.toFinset_cons, List.toFinset_cons, Finset.sdiff_insert]
      have hins : insert a l.toFinset \ seen.toFinset =
          insert a (l.toFinset \ seen.toFinset) := by
        ext x
        simp only [Finset.mem_sdiff, Finset.mem_insert, List.mem_toFinset]
        constructor
        · rintro ⟨hxa | hx, hns⟩
          · exact Or.inl hxa
          · exact Or.inr ⟨hx, hns⟩
        · rintro (hxa | ⟨hx, hns⟩)
          · exact ⟨Or.inl hxa, fun hxs => h (hxa ▸ hxs)⟩
          · exact ⟨Or.inr hx, hns⟩
      rw [hins, card_insert_eq_erase_add_one]

theorem jsDedup_length (l : List String) :
    (jsDedup l).length = l.toFinset.card := by
  rw [jsDedup, jsDedupAux_length]
  simp

theorem jsDedup_append_gt_iff (c n : List String) (hc : c.Nodup) :
    (jsDedup (c ++ n)).length > c.length ↔ ∃ t ∈ n, t ∉ c := by
  rw [jsDedup_length, List.toFinset_append, ← List.toFinset_card_of_nodup hc]
  constructor
  · intro hgt
    by_contra hno
    push_neg at hno
    have hsub : n.toFinset ⊆ c.toFinset := by
      intro x hx
      exact List.mem_toFinset.mpr (hno x (List.mem_toFinset.mp hx))
    rw [Finset.union_eq_left.mpr hsub] at hgt
    exact lt_irrefl _ hgt
  · rintro ⟨t, htn, htc⟩
    have hsub : insert t c.toFinset ⊆ c.toFinset ∪ n.toFinset := by
      intro x hx
      rcases Finset.mem_insert.mp hx with rfl | hx
      · exact Finset.mem_union_right _ (List.mem_toFinset.mpr htn)
      · exact Finset.mem_union_left _ hx
    calc c.toFinset.card < (insert t c.toFinset).card := by
          rw [Finset.card_insert_of_not_mem
            (fun hmem => htc (List.mem_toFinset.mp hmem))]
          omega
      _ ≤ (c.toFinset ∪ n.toFinset).card := Finset.card_le_card hsub

/-- C5 counterexample: cache the node with duplicate evidence
`["a", "a"]`, then re-classify within the expiry window with the fresh
token `"b"`. The merged set strictly contains the cached set (`"b"` is
new), yet the code compares the deduplicated merge length (2) against the
raw cached length (2) and returns the cached entry unchanged — no
recomputation, no replacement. -/
theorem classify_strict_growth_not_recomputed :
    ((100 : ℤ) -
        (classify none 0 none ⟨0, "div", ""⟩ ["a", "a"]).1.timestamp <
      cacheTimeout) ∧
    (classify none 100 (classify none 0 none ⟨0, "div", ""⟩ ["a", "a"]).2
        ⟨0, "div", ""⟩ ["b"]).1.evidence = ["a", "a"] ∧
    (classify none 100 (classify none 0 none ⟨0, "div", ""⟩ ["a", "a"]).2
        ⟨0, "div", ""⟩ ["b"]).1.timestamp = 0 ∧
    ((classify none 100 (classify none 0 none ⟨0, "div", ""⟩ ["a", "a"]).2
        ⟨0, "div", ""⟩ ["b"]).2).map (fun r => r.timestamp) = some 0 ∧
    "b" ∉ (classify none 0 none ⟨0, "div", ""⟩ ["a", "a"]).1.evidence := by
  exact ⟨by decide, rfl, rfl, rfl, by decide⟩

/-- C5 amended: for a cached, unexpired entry whose stored evidence list
is duplicate-free, `classify` merges the new evidence as a first-occurrence
set union and recomputes score/type and replaces the cache entry exactly
when the new list contains a token not already cached; otherwise the
cached result is returned and the entry kept. (When the cached evidence
contains duplicates the code's length comparison can miss genuinely new
tokens, as the counterexample shows.) -/
theorem classify_cached_merge (videoTime : Option ℚ) (now : ℤ)
    (c : DetectionResult) (element : Element) (evidence : List String)
    (hfresh : now - c.timestamp < cacheTimeout) (hnd : c.evidence.Nodup) :
    classify videoTime now (some c) element evidence =
      if ∃ t ∈ evidence, t ∉ c.evidence then
        let updated := createDetectionResult videoTime element
          (jsDedup (c.evidence ++ evidence)) now
        (updated, some updated)
      else (c, some c) := by
  simp only [classify, if_pos hfresh]
  by_cases hex : ∃ t ∈ evidence, t ∉ c.evidence
  · rw [if_pos hex]
    have hne : evidence.length > 0 := by
      obtain ⟨t, ht, _⟩ := hex
      cases evidence with
      | nil => cases ht
      | cons x xs => simp
    rw [if_pos hne, if_pos ((jsDedup_append_gt_iff _ _ hnd).mpr hex)]
  · rw [if_neg hex]
    by_cases hne : evidence.length > 0
    · rw [if_pos hne,
        if_neg (fun hgt => hex ((jsDedup_append_gt_iff _ _ hnd).mp hgt))]
    · rw [if_neg hne]

theorem classify_cached_merge_witness :
    (((100 : ℤ) -
        (⟨⟨0, "div", ""⟩, .displayAd, 0.5, ["a"], 0⟩ : DetectionResult).timestamp <
          cacheTimeout) ∧
      (⟨⟨0, "div", ""⟩, .displayAd, 0.5, ["a"], 0⟩ : DetectionResult).evidence.Nodup) ∧
    classify none 100 (some ⟨⟨0, "div", ""⟩, .displayAd, 0.5, ["a"], 0⟩)
        ⟨0, "div", ""⟩ ["b"] =
      (if ∃ t ∈ ["b"],
          t ∉ (⟨⟨0, "div", ""⟩, .displayAd, 0.5, ["a"], 0⟩ : DetectionResult).evidence then
        let updated := createDetectionResult none ⟨0, "div", ""⟩
          (jsDedup
            ((⟨⟨0, "div", ""⟩, .displayAd, 0.5, ["a"], 0⟩ : DetectionResult).evidence ++
              ["b"])) 100
        (updated, some updated)
      else
        (⟨⟨0, "div", ""⟩, .displayAd, 0.5, ["a"], 0⟩,
          some ⟨⟨0, "div", ""⟩, .displayAd, 0.5, ["a"], 0⟩)) := by
  refine ⟨⟨by decide, by decide⟩, ?_⟩
  exact classify_cached_merge none 100 _ _ ["b"] (by decide) (by decide)

/-! ### DetectionPipeline: throttle and stage errors (C1, C8) -/

/-- C8: a `run()` issued less than `minInterval` (100 ms) after the
previous non-throttled run returns the empty list immediately: no stage's
`execute` is invoked (empty trace) and `lastRunTime` is untouched, so no
evidence or candidates are accumulated during the call. -/
theorem runPipeline_throttled (steps : List Stage) (st : PipeState) (now : ℤ)
    (h : now - st.lastRunTime < minInterval) :
    runPipeline steps st now = (.ok [], st, []) := by
  simp only [runPipeline, if_pos h]

theorem runPipeline_throttled_witness :
    ((50 : ℤ) - (⟨0⟩ : PipeState).lastRunTime < minInterval) ∧
    runPipeline [⟨"stage", fun _ => .ok ⟨false, 0, [], none⟩⟩] ⟨0⟩ 50 =
      (.ok [], ⟨0⟩, []) := by
  exact ⟨by decide, runPipeline_throttled _ _ _ (by decide)⟩

/-- C1 counterexample: a pipeline of a throwing stage followed by a normal
stage, run outside the throttle window. `run` returns the stage's error
(the exception escapes the pipeline boundary) and the second stage is
never executed — its name is not in the invocation trace. -/
theorem runPipeline_stage_error_escapes :
    runPipeline
        [⟨"bad", fun _ => .error "boom"⟩,
          ⟨"ok", fun _ => .ok ⟨false, 0, [], none⟩⟩] ⟨0⟩ 1000 =
      (.error "boom", ⟨1000⟩, ["bad"]) ∧
    "ok" ∉ (["bad"] : List String) := by
  exact ⟨rfl, by decide⟩

theorem runStages_error_after_prefix (bad : Stage) (post : List Stage)
    (ctx' : List DetectionResult × List String) (e : String)
    (hbad : bad.execute ctx' = .error e) :
    ∀ (pre : List Stage) (ctx : List DetectionResult × List String),
      runStages pre ctx = (.ok ctx', pre.map Stage.name) →
      runStages (pre ++ bad :: post) ctx =
        (.error e, pre.map Stage.name ++ [bad.name]) := by
  intro pre
  induction pre with
  | nil =>
    intro ctx hpre
    simp only [runStages, Prod.mk.injEq, List.map_nil] at hpre
    have hctx : ctx' = ctx := by
      cases hpre.1
      rfl
    subst hctx
    simp only [List.map_nil, List.nil_append, runStages, hbad]
  | cons s rest ih =>
    intro ctx hpre
    rcases hs : s.execute ctx with e' | r
    · simp only [runStages, hs, Prod.mk.injEq] at hpre
      exact absurd hpre.1 (by simp)
    · simp only [runStages, hs, Prod.mk.injEq, List.map_cons,
        List.cons.injEq] at hpre
      obtain ⟨h1, _, h2⟩ := hpre
      have hpre' : runStages rest (ctx.1 ++ r.ads.getD [], ctx.2 ++ r.evidence) =
          (.ok ctx', rest.map Stage.name) := Prod.ext h1 h2
      simp only [List.cons_append, runStages, hs, List.map_cons]
      rw [List.append_eq, ih _ hpre']

/-- C1 amended: when a stage's `execute` throws, the error DOES propagate
past the stage boundary — `run` returns it to its caller — and the
subsequent stages do not execute: the invocation trace is exactly the
successful prefix plus the throwing stage (`lastRunTime` having been
updated at the start of the run). -/
theorem runPipeline_stage_error (pre : List Stage) (bad : Stage)
    (post : List Stage) (st : PipeState) (now : ℤ)
    (ctx' : List DetectionResult × List String) (e : String)
    (hth : ¬ (now - st.lastRunTime < minInterval))
    (hpre : runStages pre ([], []) = (.ok ctx', pre.map Stage.name))
    (hbad : bad.execute ctx' = .error e) :
    runPipeline (pre ++ bad :: post) st now =
      (.error e, ⟨now⟩, pre.map Stage.name ++ [bad.name]) := by
  simp only [runPipeline, if_neg hth,
    runStages_error_after_prefix bad post ctx' e hbad pre ([], []) hpre]

theorem runPipeline_stage_error_witness :
    (¬ ((1000 : ℤ) - (⟨0⟩ : PipeState).lastRunTime < minInterval) ∧
      runStages ([] : List Stage) ([], []) =
        (.ok ([], []), List.map Stage.name []) ∧
      (⟨"bad", fun _ => .error "x"⟩ : Stage).execute ([], []) = .error "x") ∧
    runPipeline
        ([] ++ (⟨"bad", fun _ => .error "x"⟩ : Stage) ::
          [⟨"ok", fun _ => .ok ⟨false, 0, [], none⟩⟩]) ⟨0⟩ 1000 =
      (.error "x", ⟨1000⟩, List.map Stage.name [] ++ ["bad"]) := by
  refine ⟨⟨by decide, rfl, rfl⟩, ?_⟩
  exact runPipeline_stage_error [] _ _ _ _ ([], []) "x" (by decide) rfl rfl

/-! ### Session deduplication (C7) -/

/-- C7 counterexample: the composite key is the bare concatenation
`url + ":" + source`, so the two DISTINCT pairs `("a:b", "c")` and
`("a", "b:c")` collide on the key `"a:b:c"`: the second pair's first
report attempt is suppressed, contradicting "surfaced on the first
attempt for every distinct pair". -/
theorem shouldReport_key_collision :
    (processCalls [("a:b", "c"), ("a", "b:c")] []).1 = [true, false] ∧
    ("a:b", "c") ≠ ("a", "b:c") := by
  exact ⟨rfl, by decide⟩

theorem shouldReport_state_mem (u s : String) (logged : List String)
    (k : String) :
    k ∈ (shouldReport u s logged).2 ↔ (k = logAdKey u s ∨ k ∈ logged) := by
  simp only [shouldReport]
  by_cases h : logAdKey u s ∈ logged
  · rw [if_pos h]
    constructor
    · exact Or.inr
    · rintro (rfl | hk)
      · exact h
      · exact hk
  · rw [if_neg h]
    exact List.mem_cons

theorem processCalls_getD (calls : List (String × String)) :
    ∀ (logged : List String) (i : Nat), i < calls.length →
      ((processCalls calls logged).1.getD i false = true ↔
        (logAdKey (calls.getD i ("", "")).1 (calls.getD i ("", "")).2 ∉
            logged ∧
          logAdKey (calls.getD i ("", "")).1 (calls.getD i ("", "")).2 ∉
            (calls.take i).map (fun p => logAdKey p.1 p.2))) := by
  induction calls with
  | nil => intro logged i hi; simp at hi
  | cons c rest ih =>
    obtain ⟨u, s⟩ := c
    intro logged i hi
    cases i with
    | zero =>
      by_cases h : logAdKey u s ∈ logged
      · simp [processCalls, shouldReport, h]
      · simp [processCalls, shouldReport, h]
    | succ j =>
      have hj : j < rest.length := by
        simpa [List.length_cons, Nat.succ_lt_succ_iff] using hi
      have hih := ih (shouldReport u s logged).2 j hj
      have hmem := shouldReport_state_mem u s logged
        (logAdKey (rest.getD j ("", "")).1 (rest.getD j ("", "")).2)
      simp only [processCalls, List.getD_cons_succ, List.take_succ_cons,
        List.map_cons, List.mem_cons]
      rw [hih]
      tauto

/-- C7 amended: within one session, `shouldReport` surfaces a report
exactly once per distinct composite key `url ++ ":" ++ source`: starting
from an empty session set, the i-th call returns true iff no earlier call
produced the same composite key. Per (url, source) PAIR this gives
at-most-once, but two distinct pairs with colliding keys share the single
allowance (see the counterexample). -/
theorem shouldReport_once_per_key (calls : List (String × String)) (i : Nat)
    (hi : i < calls.length) :
    ((processCalls calls []).1.getD i false = true ↔
      logAdKey (calls.getD i ("", "")).1 (calls.getD i ("", "")).2 ∉
        (calls.take i).map (fun p => logAdKey p.1 p.2)) := by
  have h := processCalls_getD calls [] i hi
  simpa using h

theorem shouldReport_once_per_key_witness :
    (1 < ([("u", "s"), ("u", "s")] : List (String × String)).length) ∧
    ((processCalls [("u", "s"), ("u", "s")] []).1.getD 1 false = true ↔
      logAdKey (([("u", "s"), ("u", "s")] : List (String × String)).getD 1 ("", "")).1
          (([("u", "s"), ("u", "s")] : List (String × String)).getD 1 ("", "")).2 ∉
        (([("u", "s"), ("u", "s")] : List (String × String)).take 1).map
          (fun p => logAdKey p.1 p.2)) := by
  exact ⟨by decide, shouldReport_once_per_key [("u", "s"), ("u", "s")] 1 (by decide)⟩

end AdScanner
